import Mathlib

/-!
Verification of the simpleperf repository's folded-stack engine and its
prebuilt-update script.

The repository ships `update.py` (modelled in namespace `Update` directly
from the source) and the test suite `test/stackcollapse_test.py` for a
stack-collapse engine whose implementation file is not part of the
repository snapshot; that engine (namespace `StackCollapse`) is modelled
from the specification document (sections 2-7): sample data model, frame
normalisation, stack-key construction, event filtering, aggregation,
sorting and emission.
-/

namespace StackCollapse

/-- Modelled from the spec: each frame is tagged with an origin
`native | kernel | jit` (spec section 6); the engine source file is missing
from the repository, only its tests are present. -/
inductive FrameOrigin where
  | native
  | kernel
  | jit
deriving DecidableEq, Repr

/-- Modelled from the spec: a raw frame descriptor is either a resolved
symbol name or an unresolved numeric address, tagged with an origin
(spec sections 3 and 6). -/
structure RawFrame where
  origin : FrameOrigin
  symbol : Option String
  addr : Nat
deriving DecidableEq, Repr

/-- Modelled from the spec: the three mutually exclusive identity tagging
modes of section 4.5. -/
inductive IdentityMode where
  | noId
  | byPid
  | byTid
deriving DecidableEq, Repr

/-- Modelled from the spec: the per-invocation configuration of the frame
normaliser and stack key builder (sections 4.1, 4.2, 4.5). -/
structure Config where
  jit : Bool
  kernel : Bool
  addrs : Bool
  mode : IdentityMode
deriving DecidableEq, Repr

/-- Modelled from the spec: a decoded sample record as produced by the
Sample Source, with a leaf-first frame list (section 3). -/
structure Sample where
  event_type : String
  pid : Nat
  tid : Nat
  comm : String
  frames : List RawFrame
deriving DecidableEq, Repr

/-- Modelled from the spec: the unannotated rendering of a frame — a
resolved symbol passes through; an unresolved address renders as a
bracketed hex literal when address fallback is on and as `unknown`
otherwise (spec section 4.1). -/
def baseName (addrFallback : Bool) (f : RawFrame) : String :=
  match f.symbol with
  | some name => name
  | none =>
    if addrFallback then "[" ++ String.mk (Nat.toDigits 16 f.addr) ++ "]"
    else "unknown"

/-- Modelled from the spec: the Frame Normalizer of section 4.1 — the
kernel / JIT marker suffixes are appended to the base rendering only when
the matching flag is enabled and the frame's origin matches. -/
def normalizeFrame (cfg : Config) (f : RawFrame) : String :=
  match f.origin with
  | FrameOrigin.kernel =>
    if cfg.kernel then baseName cfg.addrs f ++ "_[k]" else baseName cfg.addrs f
  | FrameOrigin.jit =>
    if cfg.jit then baseName cfg.addrs f ++ "_[j]" else baseName cfg.addrs f
  | FrameOrigin.native => baseName cfg.addrs f

/-- Modelled from the spec: the identity label of section 4.5 — nothing,
`comm-pid`, or `comm-pid-tid`. -/
def idLabel (mode : IdentityMode) (s : Sample) : Option String :=
  match mode with
  | IdentityMode.noId => none
  | IdentityMode.byPid => some (s.comm ++ "-" ++ Nat.repr s.pid)
  | IdentityMode.byTid =>
    some (s.comm ++ "-" ++ Nat.repr s.pid ++ "-" ++ Nat.repr s.tid)

/-- Modelled from the spec: the normalised, root-first frame list of a
sample; a sample with zero frames gets the single synthetic `[unknown]`
placeholder frame (spec sections 3 and 7). -/
def effectiveFrames (cfg : Config) (s : Sample) : List String :=
  if s.frames = [] then ["[unknown]"]
  else (s.frames.map (normalizeFrame cfg)).reverse

/-- Modelled from the spec: the ordered element list of a StackKey — the
optional identity label is the outermost (first) element, followed by the
root-first frames (section 4.2). -/
def keyElems (cfg : Config) (s : Sample) : List String :=
  match idLabel cfg.mode s with
  | some lab => lab :: effectiveFrames cfg s
  | none => effectiveFrames cfg s

/-- Modelled from the spec: join the key elements with a semicolon
separator (section 4.2). -/
def joinSemi : List String → String
  | [] => ""
  | [x] => x
  | x :: y :: rest => x ++ ";" ++ joinSemi (y :: rest)

/-- Modelled from the spec: the StackKey string of a sample
(section 4.2). -/
def stackKey (cfg : Config) (s : Sample) : String :=
  joinSemi (keyElems cfg s)

/-- Modelled from the spec: event-type selection of section 4.4 — an
explicit filter wins; otherwise the event type of the first sample
encountered is chosen. -/
def chosenEvent (flt : Option String) (samples : List Sample) : Option String :=
  match flt with
  | some e => some e
  | none => samples.head?.map Sample.event_type

/-- Modelled from the spec: a sample passes the event filter when its
`event_type` matches the chosen event (section 4.4). -/
def passes (ev : Option String) (s : Sample) : Bool :=
  match ev with
  | some e => s.event_type == e
  | none => true

/-- Modelled from the spec: the Aggregator's `record` operation of
section 4.3 — increment the count stored for the key, inserting a fresh
entry at the end when absent (first-seen insertion order preserved). -/
def record : List (String × Nat) → String → List (String × Nat)
  | [], key => [(key, 1)]
  | (k, c) :: rest, key =>
    if k = key then (k, c + 1) :: rest else (k, c) :: record rest key

/-- Modelled from the spec: the aggregation phase — fold `record` over the
samples that pass the event filter (sections 4.3 and 4.4). -/
def aggregate (cfg : Config) (flt : Option String) (samples : List Sample) :
    List (String × Nat) :=
  (samples.filter (passes (chosenEvent flt samples))).foldl
    (fun t s => record t (stackKey cfg s)) []

/-- Lexicographic code-point comparison of character lists: the order of
the StackKey strings used by the Emitter's sort (spec section 4.6). -/
def charListLt : List Char → List Char → Bool
  | [], [] => false
  | [], _ :: _ => true
  | _ :: _, [] => false
  | a :: as, b :: bs =>
    if a.toNat < b.toNat then true
    else if b.toNat < a.toNat then false
    else charListLt as bs

/-- Entry comparison: an entry is strictly below another when its StackKey
string is lexicographically smaller. -/
def keyLtB (a b : String × Nat) : Bool := charListLt a.1.data b.1.data

/-- Ordering of table entries by their StackKey string: an entry precedes
another when the other's key is not lexicographically smaller. -/
def keyLe (a b : String × Nat) : Prop := keyLtB b a = false

/-- Insert an entry into a key-sorted table, keeping it sorted. -/
def insertEntry (p : String × Nat) : List (String × Nat) → List (String × Nat)
  | [] => [p]
  | q :: rest => if keyLtB q p then q :: insertEntry p rest else p :: q :: rest

/-- Modelled from the spec: the Emitter's stable sort of the aggregate
table by the StackKey string (section 4.6). -/
def sortTable : List (String × Nat) → List (String × Nat)
  | [] => []
  | p :: rest => insertEntry p (sortTable rest)

/-- Modelled from the spec: one output line `<joined stack key> <count>`
followed by a newline (section 4.6). -/
def emitLine (p : String × Nat) : String :=
  p.1 ++ " " ++ Nat.repr p.2 ++ "\n"

/-- Modelled from the spec: the Emitter serialises the sorted table, one
line per entry (section 4.6). -/
def emit (t : List (String × Nat)) : String :=
  String.join (t.map emitLine)

/-- Modelled from the spec: the command-line surface of section 6. -/
structure Options where
  jit : Bool
  kernel : Bool
  addrs : Bool
  usePid : Bool
  useTid : Bool
  eventFilter : Option String
deriving DecidableEq, Repr

/-- Modelled from the spec: the configuration derived from the
command-line flags (sections 4.5 and 6). -/
def Options.toConfig (o : Options) : Config :=
  { jit := o.jit, kernel := o.kernel, addrs := o.addrs,
    mode :=
      if o.usePid then IdentityMode.byPid
      else if o.useTid then IdentityMode.byTid
      else IdentityMode.noId }

/-- Modelled from the spec: the whole pipeline — the `--pid`/`--tid`
configuration check comes first and fails without consuming the sample
stream (section 7); otherwise the aggregate of the filtered samples is
sorted and emitted (section 2). -/
def runPipeline (o : Options) (samples : List Sample) : Except String String :=
  if o.usePid && o.useTid then
    Except.error "--pid and --tid cannot be used together"
  else
    Except.ok (emit (sortTable (aggregate o.toConfig o.eventFilter samples)))

/-- Sum of the counts stored in an aggregate table. -/
def sumCounts (t : List (String × Nat)) : Nat := (t.map Prod.snd).sum

end StackCollapse

namespace Update

/-- The `verbose_map` tuple of `update.py` `main`:
`(logging.WARNING, logging.INFO, logging.DEBUG)`, i.e. levels
`(30, 20, 10)`. -/
def verbose_map : List Nat := [30, 20, 10]

/-- The clamping in `update.py` `main`: `if verbosity > 2: verbosity = 2`. -/
def clampVerbosity (n : Nat) : Nat := if n > 2 then 2 else n

/-- The logging level `main` configures: `verbose_map[verbosity]` after
clamping; `none` would mean an `IndexError`. -/
def configuredLevel (n : Nat) : Option Nat := verbose_map[clampVerbosity n]?

/-- The observable effect of `fetch_artifact`: either a local file copy or
an invocation of the external build-server fetch command. -/
inductive FetchAction where
  | copy (src dst : String)
  | runFetch (cmd : List String)
deriving DecidableEq, Repr

/-- The path of the external fetch command in `update.py`. -/
def fetchArtifactPath : String := "/google/data/ro/projects/android/fetch_artifact"

/-- `update.py` `fetch_artifact`: when `target` starts with `local:` it
copies `target[6:]` to `pattern` and returns; otherwise it runs the
external fetch command. Python's `target.startswith('local:')` holds
exactly when the first six characters are `local:`, and `target[6:]`
drops the first six characters. -/
def fetch_artifact (branch build target pat : String) : FetchAction :=
  if target.data.take 6 = "local:".data then
    FetchAction.copy (String.mk (target.data.drop 6)) pat
  else
    FetchAction.runFetch
      [fetchArtifactPath, "--branch", branch, "--target", target,
       "--bid", build, pat]

/-- The fixed directory list scanned by `list_prebuilts`. -/
def prebuiltDirs : List String := ["bin", "doc", "inferno", "testdata", "app_api"]

/-- A directory entry matches the glob pattern `*.<ext>` exactly when its
name ends with `.<ext>`; `glob.glob` lists each matching entry once. -/
def globSuffix (suf : String) (entries : List String) : List String :=
  entries.filter (fun n => suf.data.isSuffixOf n.data)

/-- Python's `list.remove(y)`: delete the first occurrence of `y`, or
raise `ValueError` (here: `none`) when `y` is absent. -/
def removeFirst : List String → String → Option (List String)
  | [], _ => none
  | x :: xs, y =>
    if x = y then some xs else (removeFirst xs y).map (fun l => x :: l)

/-- `update.py` `list_prebuilts`: existing directories from the fixed
list, then the globbed `*.py` and `*.js` entries, with `update.py` removed
(`ValueError` when absent) and `inferno.sh`, `inferno.bat` appended. The
current directory is abstracted as its entry list plus an `isDir`
predicate. -/
def list_prebuilts (isDir : String → Bool) (entries : List String) :
    Except String (List String) :=
  let dirs := prebuiltDirs.filter isDir
  let result := dirs ++ globSuffix ".py" entries ++ globSuffix ".js" entries
  match removeFirst result "update.py" with
  | some r => Except.ok (r ++ ["inferno.sh", "inferno.bat"])
  | none => Except.error "ValueError"

/-- `update.py` `remove_old_release`: returns the list of paths passed to
`git rm` / `rm -rf` (empty when `list_prebuilts` returns an empty list),
propagating the `ValueError` of `list_prebuilts`. -/
def remove_old_release (isDir : String → Bool) (entries : List String) :
    Except String (List String) :=
  match list_prebuilts isDir entries with
  | Except.error e => Except.error e
  | Except.ok l => Except.ok (if l = [] then [] else l)

end Update

namespace StackCollapse

lemma record_sumCounts (t : List (String × Nat)) (key : String) :
    sumCounts (record t key) = sumCounts t + 1 := by
  induction t with
  | nil => rfl
  | cons p rest ih =>
    obtain ⟨k, c⟩ := p
    by_cases h : k = key
    · simp [record, h, sumCounts]
      omega
    · simp [record, h, sumCounts] at ih ⊢
      omega

lemma foldl_record_sumCounts (cfg : Config) (l : List Sample)
    (t : List (String × Nat)) :
    sumCounts (l.foldl (fun t s => record t (stackKey cfg s)) t)
      = sumCounts t + l.length := by
  induction l generalizing t with
  | nil => simp
  | cons s rest ih =>
    simp only [List.foldl_cons, List.length_cons]
    rw [ih, record_sumCounts]
    omega

lemma insertEntry_perm (p : String × Nat) (l : List (String × Nat)) :
    (insertEntry p l).Perm (p :: l) := by
  induction l with
  | nil => exact List.Perm.refl _
  | cons q rest ih =>
    simp only [insertEntry]
    by_cases h : keyLtB q p
    · rw [if_pos h]
      exact (ih.cons q).trans (List.Perm.swap p q rest)
    · rw [if_neg h]

lemma sortTable_perm (t : List (String × Nat)) : (sortTable t).Perm t := by
  induction t with
  | nil => exact List.Perm.refl _
  | cons p rest ih =>
    exact (insertEntry_perm p (sortTable rest)).trans (ih.cons p)

lemma sortTable_sumCounts (t : List (String × Nat)) :
    sumCounts (sortTable t) = sumCounts t :=
  List.Perm.sum_eq ((sortTable_perm t).map Prod.snd)

/-- Claim C1: after the aggregator has processed the samples that pass the
event filter, the sum of the counts stored in the aggregate table — and
the sum of the counts in the sorted table the emitter serialises — equals
exactly the number of filtered samples: none is double-counted or
dropped. -/
theorem count_conservation (cfg : Config) (flt : Option String)
    (samples : List Sample) :
    sumCounts (aggregate cfg flt samples)
        = (samples.filter (passes (chosenEvent flt samples))).length ∧
    sumCounts (sortTable (aggregate cfg flt samples))
        = (samples.filter (passes (chosenEvent flt samples))).length := by
  have h : sumCounts (aggregate cfg flt samples)
      = (samples.filter (passes (chosenEvent flt samples))).length := by
    unfold aggregate
    rw [foldl_record_sumCounts]
    simp [sumCounts]
  exact ⟨h, (sortTable_sumCounts _).trans h⟩

/-- Claim C5: when both identity flags are supplied the pipeline fails
with a configuration error, the result does not depend on the sample
stream (the Sample Source is never touched), and no output is
produced. -/
theorem pid_tid_mutual_exclusion (o : Options) (samples : List Sample)
    (hp : o.usePid = true) (ht : o.useTid = true) :
    runPipeline o samples
        = Except.error "--pid and --tid cannot be used together" ∧
    (∀ other : List Sample, runPipeline o other = runPipeline o samples) ∧
    ∀ out, runPipeline o samples ≠ Except.ok out := by
  have h : ∀ l : List Sample, runPipeline o l
      = Except.error "--pid and --tid cannot be used together" := by
    intro l
    simp [runPipeline, hp, ht]
  refine ⟨h samples, fun other => (h other).trans (h samples).symm, ?_⟩
  intro out hc
  rw [h samples] at hc
  exact Except.noConfusion hc

theorem pid_tid_mutual_exclusion_witness :
    runPipeline ⟨false, false, false, true, true, none⟩ []
      = Except.error "--pid and --tid cannot be used together" :=
  (pid_tid_mutual_exclusion ⟨false, false, false, true, true, none⟩ [] rfl rfl).1

/-- Claim C6: a sample with zero resolvable frames is substituted with the
single synthetic frame, so every StackKey considered in aggregation is
built from a non-empty element list; such samples still enter aggregation
(count totals are conserved over all filtered samples), and a session of
one empty-stack sample emits it as an `[unknown]` line rather than
discarding it. -/
theorem empty_stack_recovery (cfg : Config) (flt : Option String)
    (s : Sample) (samples : List Sample) :
    effectiveFrames cfg s ≠ [] ∧
    keyElems cfg s ≠ [] ∧
    sumCounts (aggregate cfg flt samples)
        = (samples.filter (passes (chosenEvent flt samples))).length ∧
    runPipeline ⟨false, false, false, false, false, none⟩
        [⟨"cpu-cycles", 7, 8, "comm", []⟩] = Except.ok "[unknown] 1\n" := by
  have h1 : effectiveFrames cfg s ≠ [] := by
    unfold effectiveFrames
    split
    · simp
    · simp only [ne_eq, List.reverse_eq_nil_iff, List.map_eq_nil_iff]
      assumption
  refine ⟨h1, ?_, ?_, rfl⟩
  · unfold keyElems
    split
    · simp
    · exact h1
  · unfold aggregate
    rw [foldl_record_sumCounts]
    simp [sumCounts]

/-- Claim C7: enabling the kernel (resp. JIT) flag changes the rendered
string only of frames whose origin is kernel (resp. JIT), by appending
the matching marker suffix; frames of any other origin render
byte-identically to the run without the flag; a rendered frame carries at
most one marker, and the kernel and JIT origins are mutually
exclusive. -/
theorem marker_locality (j k a : Bool) (m : IdentityMode) (f : RawFrame) :
    (f.origin = FrameOrigin.kernel →
      normalizeFrame ⟨j, true, a, m⟩ f
        = normalizeFrame ⟨j, false, a, m⟩ f ++ "_[k]") ∧
    (f.origin ≠ FrameOrigin.kernel →
      normalizeFrame ⟨j, true, a, m⟩ f = normalizeFrame ⟨j, false, a, m⟩ f) ∧
    (f.origin = FrameOrigin.jit →
      normalizeFrame ⟨true, k, a, m⟩ f
        = normalizeFrame ⟨false, k, a, m⟩ f ++ "_[j]") ∧
    (f.origin ≠ FrameOrigin.jit →
      normalizeFrame ⟨true, k, a, m⟩ f = normalizeFrame ⟨false, k, a, m⟩ f) ∧
    (normalizeFrame ⟨j, k, a, m⟩ f = baseName a f ∨
      normalizeFrame ⟨j, k, a, m⟩ f = baseName a f ++ "_[k]" ∨
      normalizeFrame ⟨j, k, a, m⟩ f = baseName a f ++ "_[j]") ∧
    ¬(f.origin = FrameOrigin.kernel ∧ f.origin = FrameOrigin.jit) := by
  obtain ⟨orig, sym, addr⟩ := f
  cases orig <;> cases j <;> cases k <;> simp [normalizeFrame, baseName]

theorem marker_locality_witness :
    normalizeFrame ⟨false, true, false, IdentityMode.noId⟩
        ⟨FrameOrigin.kernel, some "vfs_read", 0⟩
      = normalizeFrame ⟨false, false, false, IdentityMode.noId⟩
          ⟨FrameOrigin.kernel, some "vfs_read", 0⟩ ++ "_[k]" :=
  (marker_locality false false false IdentityMode.noId
    ⟨FrameOrigin.kernel, some "vfs_read", 0⟩).1 rfl

end StackCollapse

namespace Update

/-- Claim C9: `main` clamps the `--verbose` count to at most 2 before
indexing the three-element `verbose_map`, so the index is always in
bounds and every count of at least 2 configures `logging.DEBUG`
(level 10). -/
theorem verbosity_clamped (n : Nat) :
    clampVerbosity n < verbose_map.length ∧
    configuredLevel n = some (if 2 ≤ n then 10 else if n = 1 then 20 else 30) ∧
    (2 ≤ n → configuredLevel n = some 10) := by
  have hclamp : clampVerbosity n < verbose_map.length := by
    have hlen : verbose_map.length = 3 := rfl
    rw [hlen]
    unfold clampVerbosity
    split <;> omega
  have hlevel : configuredLevel n
      = some (if 2 ≤ n then 10 else if n = 1 then 20 else 30) := by
    rcases n with _ | _ | m
    · rfl
    · rfl
    · have h1 : clampVerbosity (m + 2) = 2 := by
        unfold clampVerbosity
        split <;> omega
      have h2 : 2 ≤ m + 2 := by omega
      unfold configuredLevel
      rw [h1, if_pos h2]
      rfl
  exact ⟨hclamp, hlevel, fun h => by rw [hlevel, if_pos h]⟩

theorem verbosity_clamped_witness : configuredLevel 5 = some 10 :=
  (verbosity_clamped 5).2.2 (by omega)

/-- Claim C10: when the target starts with `local:`, `fetch_artifact`
copies the file at the path after the six-character marker to the
destination given by the pattern and does not invoke the external fetch
command; the external command is invoked exactly when the target does not
start with `local:`. -/
theorem fetch_artifact_local (branch build target pat : String) :
    (target.data.take 6 = "local:".data →
      fetch_artifact branch build target pat
        = FetchAction.copy (String.mk (target.data.drop 6)) pat) ∧
    ((∃ cmd, fetch_artifact branch build target pat = FetchAction.runFetch cmd)
      ↔ ¬target.data.take 6 = "local:".data) := by
  unfold fetch_artifact
  by_cases h : target.data.take 6 = "local:".data
  · rw [if_pos h]
    refine ⟨fun _ => rfl, ⟨fun ⟨cmd, hc⟩ => ?_, fun hn => absurd h hn⟩⟩
    exact FetchAction.noConfusion hc
  · rw [if_neg h]
    exact ⟨fun hh => absurd hh h, ⟨fun _ => h, fun _ => ⟨_, rfl⟩⟩⟩

theorem fetch_artifact_local_witness :
    fetch_artifact "aosp-simpleperf-release" "123" "local:/x/y" "out"
      = FetchAction.copy "/x/y" "out" :=
  (fetch_artifact_local "aosp-simpleperf-release" "123" "local:/x/y" "out").1
    (by decide)

end Update

namespace StackCollapse

/-- Claim C3: the StackKey is the semicolon-joined list whose elements are
the reversed (root-first) normalised frames with the identity label, when
one is present, as the outermost element: joining a non-empty tail puts a
semicolon after the head; with no identity label the key is exactly the
joined reversed frame list; appending a frame at the root end of the
leaf-first list prepends it to the key; and a session of one sample with
leaf-first stack `[main, foo, bar]` and no identity label emits the line
`bar;foo;main 1`. -/
theorem stack_key_construction (j k a : Bool) (m : IdentityMode)
    (et c : String) (p t : Nat) (fs : List RawFrame) (f : RawFrame)
    (s : Sample) :
    (∀ (x : String) (l : List String), l ≠ [] →
      joinSemi (x :: l) = x ++ ";" ++ joinSemi l) ∧
    (s.frames ≠ [] →
      stackKey ⟨j, k, a, IdentityMode.noId⟩ s
        = joinSemi
            ((s.frames.map (normalizeFrame ⟨j, k, a, IdentityMode.noId⟩)).reverse)) ∧
    (∀ lab, idLabel m s = some lab →
      keyElems ⟨j, k, a, m⟩ s = lab :: effectiveFrames ⟨j, k, a, m⟩ s) ∧
    (fs ≠ [] →
      stackKey ⟨j, k, a, IdentityMode.noId⟩ ⟨et, p, t, c, fs ++ [f]⟩
        = normalizeFrame ⟨j, k, a, IdentityMode.noId⟩ f ++ ";"
            ++ stackKey ⟨j, k, a, IdentityMode.noId⟩ ⟨et, p, t, c, fs⟩) ∧
    runPipeline ⟨false, false, false, false, false, none⟩
        [⟨"cpu-cycles", 1, 2, "c",
          [⟨FrameOrigin.native, some "main", 0⟩,
           ⟨FrameOrigin.native, some "foo", 0⟩,
           ⟨FrameOrigin.native, some "bar", 0⟩]⟩]
      = Except.ok "bar;foo;main 1\n" := by
  have hjoin : ∀ (x : String) (l : List String), l ≠ [] →
      joinSemi (x :: l) = x ++ ";" ++ joinSemi l := by
    intro x l hl
    cases l with
    | nil => exact absurd rfl hl
    | cons y r => rfl
  refine ⟨hjoin, ?_, ?_, ?_, rfl⟩
  · intro hf
    simp [stackKey, keyElems, idLabel, effectiveFrames, hf]
  · intro lab hlab
    simp [keyElems, hlab]
  · intro hfs
    have h2 : (fs.map (normalizeFrame ⟨j, k, a, IdentityMode.noId⟩)).reverse ≠ [] := by
      simp only [ne_eq, List.reverse_eq_nil_iff, List.map_eq_nil_iff]
      exact hfs
    calc stackKey ⟨j, k, a, IdentityMode.noId⟩ ⟨et, p, t, c, fs ++ [f]⟩
        = joinSemi (normalizeFrame ⟨j, k, a, IdentityMode.noId⟩ f
            :: (fs.map (normalizeFrame ⟨j, k, a, IdentityMode.noId⟩)).reverse) := by
          simp [stackKey, keyElems, idLabel, effectiveFrames,
            List.map_append, List.reverse_append]
      _ = normalizeFrame ⟨j, k, a, IdentityMode.noId⟩ f ++ ";"
            ++ joinSemi ((fs.map (normalizeFrame ⟨j, k, a, IdentityMode.noId⟩)).reverse) :=
          hjoin _ _ h2
      _ = normalizeFrame ⟨j, k, a, IdentityMode.noId⟩ f ++ ";"
            ++ stackKey ⟨j, k, a, IdentityMode.noId⟩ ⟨et, p, t, c, fs⟩ := by
          simp [stackKey, keyElems, idLabel, effectiveFrames, hfs]

theorem stack_key_construction_witness :
    stackKey ⟨false, false, false, IdentityMode.noId⟩
        ⟨"cpu-cycles", 1, 2, "c",
          [⟨FrameOrigin.native, some "leaf", 0⟩,
           ⟨FrameOrigin.native, some "root", 0⟩]⟩
      = normalizeFrame ⟨false, false, false, IdentityMode.noId⟩
            ⟨FrameOrigin.native, some "root", 0⟩ ++ ";"
          ++ stackKey ⟨false, false, false, IdentityMode.noId⟩
              ⟨"cpu-cycles", 1, 2, "c", [⟨FrameOrigin.native, some "leaf", 0⟩]⟩ :=
  (stack_key_construction false false false IdentityMode.noId "cpu-cycles" "c"
    1 2 [⟨FrameOrigin.native, some "leaf", 0⟩]
    ⟨FrameOrigin.native, some "root", 0⟩
    ⟨"", 0, 0, "", []⟩).2.2.2.1 (by decide)

/-- Claim C4: with no explicit event filter, the pipeline behaves exactly
as if the event type of the first sample had been supplied as the
explicit filter: the output is identical, every sample that passes the
implicit filter carries the first sample's event type, and every sample
of a different event type is excluded. -/
theorem implicit_event_selection (o : Options) (s : Sample)
    (rest : List Sample) (hflt : o.eventFilter = none) :
    runPipeline o (s :: rest)
      = runPipeline ⟨o.jit, o.kernel, o.addrs, o.usePid, o.useTid,
          some s.event_type⟩ (s :: rest) ∧
    (∀ x ∈ (s :: rest).filter (passes (chosenEvent o.eventFilter (s :: rest))),
      x.event_type = s.event_type) ∧
    (∀ x : Sample, x.event_type ≠ s.event_type →
      passes (chosenEvent o.eventFilter (s :: rest)) x = false) := by
  have hch : chosenEvent o.eventFilter (s :: rest) = some s.event_type := by
    rw [hflt]
    rfl
  refine ⟨?_, ?_, ?_⟩
  · have hagg : aggregate o.toConfig o.eventFilter (s :: rest)
        = aggregate
            (Options.toConfig
              ⟨o.jit, o.kernel, o.addrs, o.usePid, o.useTid, some s.event_type⟩)
            (some s.event_type) (s :: rest) := by
      unfold aggregate
      rw [hch]
      rfl
    unfold runPipeline
    rw [hagg]
  · intro x hx
    rw [hch] at hx
    rcases List.mem_filter.mp hx with ⟨_, hpass⟩
    simpa [passes] using hpass
  · intro x hne
    rw [hch]
    simpa [passes] using hne

theorem implicit_event_selection_witness :
    runPipeline ⟨false, false, false, false, false, none⟩
        [⟨"cpu-cycles", 1, 1, "c", []⟩, ⟨"cpu-clock", 1, 1, "c", []⟩]
      = runPipeline ⟨false, false, false, false, false, some "cpu-cycles"⟩
          [⟨"cpu-cycles", 1, 1, "c", []⟩, ⟨"cpu-clock", 1, 1, "c", []⟩] :=
  (implicit_event_selection ⟨false, false, false, false, false, none⟩
    ⟨"cpu-cycles", 1, 1, "c", []⟩ [⟨"cpu-clock", 1, 1, "c", []⟩] rfl).1

end StackCollapse

namespace StackCollapse

lemma char_toNat_inj {a b : Char} (h : a.toNat = b.toNat) : a = b := by
  apply Char.eq_of_val_eq
  apply UInt32.eq_of_val_eq
  exact Fin.eq_of_val_eq h

lemma charListLt_asymm : ∀ {x y : List Char},
    charListLt x y = true → charListLt y x = false := by
  intro x
  induction x with
  | nil =>
    intro y h
    cases y with
    | nil => simp [charListLt] at h
    | cons b bs => simp [charListLt]
  | cons a as ih =>
    intro y h
    cases y with
    | nil => simp [charListLt] at h
    | cons b bs =>
      by_cases h1 : a.toNat < b.toNat
      · have h2 : ¬b.toNat < a.toNat := by omega
        simp [charListLt, h1, h2]
      · by_cases h2 : b.toNat < a.toNat
        · simp [charListLt, h1, h2] at h
        · simp [charListLt, h1, h2] at h ⊢
          exact ih h

lemma charListLt_antisymm : ∀ {x y : List Char},
    charListLt x y = false → charListLt y x = false → x = y := by
  intro x
  induction x with
  | nil =>
    intro y h1 _
    cases y with
    | nil => rfl
    | cons b bs => simp [charListLt] at h1
  | cons a as ih =>
    intro y h1 h2
    cases y with
    | nil => simp [charListLt] at h2
    | cons b bs =>
      by_cases hab : a.toNat < b.toNat
      · simp [charListLt, hab] at h1
      · by_cases hba : b.toNat < a.toNat
        · simp [charListLt, hba] at h2
        · have he : a = b := char_toNat_inj (by omega)
          subst he
          simp [charListLt, hab] at h1 h2
          rw [ih h1 h2]

lemma charListLt_le_trans : ∀ {x y z : List Char}, charListLt y x = false →
    charListLt z y = false → charListLt z x = false := by
  intro x
  induction x with
  | nil =>
    intro y z _ _
    cases z with
    | nil => rfl
    | cons c cs => rfl
  | cons a as ih =>
    intro y z h1 h2
    cases y with
    | nil => simp [charListLt] at h1
    | cons b bs =>
      cases z with
      | nil => simp [charListLt] at h2
      | cons c cs =>
        by_cases hba : b.toNat < a.toNat
        · simp [charListLt, hba] at h1
        · by_cases hcb : c.toNat < b.toNat
          · simp [charListLt, hcb] at h2
          · have hca : ¬c.toNat < a.toNat := by omega
            by_cases hab : a.toNat < b.toNat
            · have hac : a.toNat < c.toNat := by omega
              simp [charListLt, hca, hac]
            · by_cases hbc : b.toNat < c.toNat
              · have hac : a.toNat < c.toNat := by omega
                simp [charListLt, hca, hac]
              · have hac : ¬a.toNat < c.toNat := by omega
                simp [charListLt, hba, hab] at h1
                simp [charListLt, hcb, hbc] at h2
                simp [charListLt, hca, hac]
                exact ih h1 h2

lemma insertEntry_sorted (p : String × Nat) (l : List (String × Nat))
    (h : List.Pairwise keyLe l) : List.Pairwise keyLe (insertEntry p l) := by
  induction l with
  | nil => simp [insertEntry]
  | cons q rest ih =>
    rcases List.pairwise_cons.mp h with ⟨hq, hrest⟩
    by_cases hlt : keyLtB q p
    · simp only [insertEntry, if_pos hlt]
      apply List.pairwise_cons.mpr
      refine ⟨?_, ih hrest⟩
      intro x hx
      have hx' : x ∈ p :: rest := (insertEntry_perm p rest).mem_iff.mp hx
      rcases List.mem_cons.mp hx' with hxp | hxr
      · subst hxp
        exact charListLt_asymm hlt
      · exact hq x hxr
    · simp only [insertEntry, if_neg hlt]
      apply List.pairwise_cons.mpr
      refine ⟨?_, h⟩
      intro x hx
      have hqp : keyLtB q p = false := Bool.eq_false_iff.mpr hlt
      rcases List.mem_cons.mp hx with hxq | hxr
      · subst hxq
        exact hqp
      · have hqx : keyLe q x := hq x hxr
        exact charListLt_le_trans hqp hqx

lemma sortTable_sorted (t : List (String × Nat)) :
    List.Pairwise keyLe (sortTable t) := by
  induction t with
  | nil => simp [sortTable]
  | cons p rest ih => exact insertEntry_sorted p (sortTable rest) ih

lemma sortTable_eq_of_perm (t₁ t₂ : List (String × Nat)) (hperm : t₁.Perm t₂)
    (hnd : (t₁.map Prod.fst).Nodup) : sortTable t₁ = sortTable t₂ := by
  have hp : (sortTable t₁).Perm (sortTable t₂) :=
    (sortTable_perm t₁).trans (hperm.trans (sortTable_perm t₂).symm)
  have hnd₂ : (t₂.map Prod.fst).Nodup := ((hperm.map Prod.fst).nodup_iff).mp hnd
  have key : ∀ t : List (String × Nat), (t.map Prod.fst).Nodup →
      List.Pairwise (fun x y : String × Nat => keyLe x y ∧ x.1 ≠ y.1)
        (sortTable t) := by
    intro t hn
    have hsn : ((sortTable t).map Prod.fst).Nodup :=
      (((sortTable_perm t).map Prod.fst).nodup_iff).mpr hn
    have hne : List.Pairwise (fun x y : String × Nat => x.1 ≠ y.1) (sortTable t) :=
      List.pairwise_map.mp hsn
    exact (sortTable_sorted t).and hne
  haveI : IsAntisymm (String × Nat)
      (fun x y : String × Nat => keyLe x y ∧ x.1 ≠ y.1) := by
    constructor
    intro x y h1 h2
    exact absurd (String.ext (charListLt_antisymm h2.1 h1.1)) h1.2
  exact List.eq_of_perm_of_sorted hp (key t₁ hnd) (key t₂ hnd₂)

/-- Claim C2: the pipeline is a pure function of its input and
configuration (two runs agree); the emitter's table is sorted by the
StackKey string, so the emitted text is independent of the insertion
order of the aggregate table (any two tables that are permutations of
each other with distinct keys emit byte-identical output); and the output
is the concatenation of lines of the form `<joined stack key> <count>`
with the count rendered in decimal. -/
theorem deterministic_emission (o : Options) (samples : List Sample)
    (t₁ t₂ : List (String × Nat)) (hperm : t₁.Perm t₂)
    (hnd : (t₁.map Prod.fst).Nodup) :
    runPipeline o samples = runPipeline o samples ∧
    List.Pairwise keyLe (sortTable (aggregate o.toConfig o.eventFilter samples)) ∧
    emit (sortTable t₁) = emit (sortTable t₂) ∧
    emit (sortTable t₁)
      = String.join ((sortTable t₁).map
          (fun p => p.1 ++ " " ++ Nat.repr p.2 ++ "\n")) :=
  ⟨rfl, sortTable_sorted _,
    by rw [sortTable_eq_of_perm t₁ t₂ hperm hnd], rfl⟩

theorem deterministic_emission_witness :
    emit (sortTable [("b;a", 1), ("a;c", 2)])
      = emit (sortTable [("a;c", 2), ("b;a", 1)]) :=
  (deterministic_emission ⟨false, false, false, false, false, none⟩ []
    [("b;a", 1), ("a;c", 2)] [("a;c", 2), ("b;a", 1)]
    (by decide) (by decide)).2.2.1

end StackCollapse

namespace Update

lemma removeFirst_not_mem : ∀ {l : List String} {y : String}, y ∉ l →
    removeFirst l y = none := by
  intro l
  induction l with
  | nil => intro y _; rfl
  | cons x xs ih =>
    intro y hy
    have hxy : ¬x = y := fun h => hy (h ▸ List.mem_cons_self x xs)
    have hx' : y ∉ xs := fun h => hy (List.mem_cons_of_mem x h)
    simp [removeFirst, hxy, ih hx']

lemma removeFirst_append_left {l₁ : List String} (l₂ : List String)
    {y : String} (hy : y ∉ l₁) :
    removeFirst (l₁ ++ l₂) y = (removeFirst l₂ y).map (fun r => l₁ ++ r) := by
  induction l₁ with
  | nil => cases h : removeFirst l₂ y <;> simp [h]
  | cons x xs ih =>
    have hxy : ¬x = y := fun h => hy (h ▸ List.mem_cons_self x xs)
    have hx' : y ∉ xs := fun h => hy (List.mem_cons_of_mem x h)
    cases h : removeFirst l₂ y <;>
      simp [removeFirst, hxy, ih hx', h]

lemma removeFirst_mem : ∀ {l : List String} {y : String}, y ∈ l → l.Nodup →
    ∃ l', removeFirst l y = some l' ∧ y ∉ l' := by
  intro l
  induction l with
  | nil => intro y h _; cases h
  | cons x xs ih =>
    intro y hy hnd
    rcases List.nodup_cons.mp hnd with ⟨hxnotin, hnd'⟩
    rcases List.mem_cons.mp hy with hxy | hyx
    · refine ⟨xs, by simp [removeFirst, hxy.symm], ?_⟩
      rw [hxy]
      exact hxnotin
    · by_cases hxy : x = y
      · subst hxy
        exact absurd hyx hxnotin
      · rcases ih hyx hnd' with ⟨l', hl', hy'⟩
        exact ⟨x :: l', by simp [removeFirst, hxy, hl'],
          fun hc => (List.mem_cons.mp hc).elim (fun h => hxy h.symm) hy'⟩

lemma removeFirst_append_mem {l₁ : List String} (l₂ : List String)
    {y : String} (hy : y ∈ l₁) :
    removeFirst (l₁ ++ l₂) y = (removeFirst l₁ y).map (fun r => r ++ l₂) := by
  induction l₁ with
  | nil => cases hy
  | cons x xs ih =>
    by_cases hxy : x = y
    · simp [removeFirst, hxy]
    · have hyx : y ∈ xs := (List.mem_cons.mp hy).resolve_left fun h => hxy h.symm
      cases h : removeFirst xs y <;>
        simp [removeFirst, hxy, ih hyx, h]

/-- Claim C8: whenever the glob of `*.py` includes `update.py`,
`list_prebuilts` returns a list that does not contain `update.py` and
whose last two elements are `inferno.sh` and `inferno.bat`, so
`remove_old_release` never deletes `update.py` itself; when `update.py`
is not among the globbed `*.py` files, `list_prebuilts` raises
`ValueError` instead of returning. -/
theorem list_prebuilts_protects_update (isDir : String → Bool)
    (entries : List String) (hnd : entries.Nodup) :
    ("update.py" ∈ globSuffix ".py" entries →
      ∃ l, list_prebuilts isDir entries = Except.ok l ∧
        "update.py" ∉ l ∧
        (∃ l₀, l = l₀ ++ ["inferno.sh", "inferno.bat"]) ∧
        remove_old_release isDir entries = Except.ok l) ∧
    ("update.py" ∉ globSuffix ".py" entries →
      list_prebuilts isDir entries = Except.error "ValueError") := by
  have hdirs : "update.py" ∉ prebuiltDirs.filter isDir := by
    intro h
    exact absurd (List.mem_filter.mp h).1 (by decide)
  have hjs : "update.py" ∉ globSuffix ".js" entries := by
    intro h
    exact absurd (List.mem_filter.mp h).2 (by decide)
  constructor
  · intro hpy
    have hpynd : (globSuffix ".py" entries).Nodup := List.Nodup.filter _ hnd
    rcases removeFirst_mem hpy hpynd with ⟨py', hpy', hnot'⟩
    have hstep : removeFirst
        (prebuiltDirs.filter isDir ++ globSuffix ".py" entries
          ++ globSuffix ".js" entries) "update.py"
        = some (prebuiltDirs.filter isDir ++ (py' ++ globSuffix ".js" entries)) := by
      rw [List.append_assoc, removeFirst_append_left _ hdirs,
        removeFirst_append_mem _ hpy, hpy']
      rfl
    have hmain : list_prebuilts isDir entries
        = Except.ok (prebuiltDirs.filter isDir ++ (py' ++ globSuffix ".js" entries)
            ++ ["inferno.sh", "inferno.bat"]) := by
      simp only [list_prebuilts]
      rw [hstep]
    refine ⟨_, hmain, ?_, ⟨_, rfl⟩, ?_⟩
    · intro hc
      rcases List.mem_append.mp hc with hc1 | hc2
      · rcases List.mem_append.mp hc1 with hca | hcb
        · exact hdirs hca
        · rcases List.mem_append.mp hcb with hcc | hcd
          · exact hnot' hcc
          · exact hjs hcd
      · exact absurd hc2 (by decide)
    · unfold remove_old_release
      rw [hmain]
      simp
  · intro hpy
    have hnone : removeFirst
        (prebuiltDirs.filter isDir ++ globSuffix ".py" entries
          ++ globSuffix ".js" entries) "update.py" = none := by
      apply removeFirst_not_mem
      intro hc
      rcases List.mem_append.mp hc with hc1 | hc2
      · rcases List.mem_append.mp hc1 with hca | hcb
        · exact hdirs hca
        · exact hpy hcb
      · exact hjs hc2
    simp only [list_prebuilts]
    rw [hnone]

theorem list_prebuilts_protects_update_witness :
    ∃ l, list_prebuilts (fun _ => false) ["update.py", "report.py", "foo.js"]
        = Except.ok l ∧
      "update.py" ∉ l ∧
      (∃ l₀, l = l₀ ++ ["inferno.sh", "inferno.bat"]) ∧
      remove_old_release (fun _ => false) ["update.py", "report.py", "foo.js"]
        = Except.ok l :=
  (list_prebuilts_protects_update (fun _ => false)
    ["update.py", "report.py", "foo.js"] (by decide)).1 (by decide)

end Update
